import Mathlib

/-!
Verification model of the migration engine in
`src/masoniteorm/migrations/Migration.py`: discovery of pending migration
files, the persisted ledger of applied migrations, batch numbering, and the
migrate / rollback / reset / rollback_all / refresh operations, including
the per-call preview (`output`) behaviour.

The ledger itself (`MigrationModel` and the query-builder collection
operations it is consumed through) is not part of the shown sources; its
operations are modelled from the specification's ledger interface
(all / current_batch / latest_batch_names / record / remove / remove_many).
Everything else is translated directly from `Migration.py`.
-/

namespace MasoniteOrm

/-- Characters of a Python string split on a single separator character,
modelling `str.split(sep)`: every occurrence of the separator starts a new
group, and empty groups are kept. -/
def splitOnChar (sep : Char) : List Char → List (List Char)
  | [] => [[]]
  | c :: rest =>
    match splitOnChar sep rest with
    | [] => [[]]
    | g :: gs => if c = sep then [] :: g :: gs else (c :: g) :: gs

/-- Python `file_name.split("_")`. -/
def pySplitUnderscore (s : String) : List String :=
  (splitOnChar '_' s.data).map (fun cs => String.mk cs)

/-- Python `"_".join(parts)`. -/
def joinUnderscore : List String → String
  | [] => ""
  | [s] => s
  | s :: rest => s ++ "_" ++ joinUnderscore rest

/-- Python `s.replace(".py", "")`: remove every occurrence of `.py`,
scanning left to right. -/
def removeDotPy : List Char → List Char
  | [] => []
  | '.' :: 'p' :: 'y' :: rest => removeDotPy rest
  | c :: rest => c :: removeDotPy rest

/-- String wrapper around `removeDotPy`. -/
def stripDotPy (s : String) : String := String.mk (removeDotPy s.data)

/-- Model of `inflection.camelize` with its default uppercase-first
behaviour: uppercase the character at the start of the string and each
character that follows an underscore, dropping those underscores (the
behaviour of substituting pattern start-or-underscore-then-one-character by
the uppercased captured character). The boolean is true exactly when the
previous position was such a boundary. -/
def camelizeChars : Bool → List Char → List Char
  | _, [] => []
  | true, c :: rest => c.toUpper :: camelizeChars false rest
  | false, c :: rest =>
    if c = '_' then camelizeChars true rest else c :: camelizeChars false rest

/-- String wrapper around `camelizeChars`. -/
def camelize (s : String) : String := String.mk (camelizeChars true s.data)

/-- Python `migration_directory.replace("/", ".")` (a single-character
pattern, so a character map). -/
def slashesToDots (s : String) : String :=
  String.mk (s.data.map (fun c => if c = '/' then '.' else c))

/-- One row of the `migrations` table: `migration_id` surrogate key,
`migration` filename, `batch` number. -/
structure MigrationRecord where
  migration_id : Nat
  migration : String
  batch : Nat
deriving DecidableEq

/-- Modelled from the spec: the Migration Ledger — the `MigrationModel`
record store, whose implementation is outside the shown sources. Rows are
kept in insertion order; `nextId` models the auto-incrementing
`migration_id` column. -/
structure Ledger where
  rows : List MigrationRecord
  nextId : Nat
deriving DecidableEq

/-- Modelled from the spec: `all().pluck("migration")`, names in insertion
order. -/
def Ledger.names (l : Ledger) : List String := l.rows.map (fun rec => rec.migration)

/-- Modelled from the spec: the collection `max("batch")` — the maximum
batch value across all rows, or 0 when the ledger is empty. -/
def Ledger.maxBatch (l : Ledger) : Nat := (l.rows.map (fun rec => rec.batch)).foldr max 0

/-- Modelled from the spec: `create` inserts one row with the next
surrogate key. -/
def Ledger.record (l : Ledger) (name : String) (batch : Nat) : Ledger :=
  ⟨l.rows ++ [⟨l.nextId, name, batch⟩], l.nextId + 1⟩

/-- Modelled from the spec: `where("migration", name).delete()`; a no-op
when the name is absent. -/
def Ledger.remove (l : Ledger) (name : String) : Ledger :=
  ⟨l.rows.filter (fun rec => decide (rec.migration ≠ name)), l.nextId⟩

/-- Modelled from the spec: `where_in("migration", names).delete()`. -/
def Ledger.removeMany (l : Ledger) (names : List String) : Ledger :=
  ⟨l.rows.filter (fun rec => decide (rec.migration ∉ names)), l.nextId⟩

/-- Sequential `record` calls, one per name, all at the same batch. -/
def Ledger.recordAll (l : Ledger) (batch : Nat) : List String → Ledger
  | [] => l
  | n :: ns => Ledger.recordAll (l.record n batch) batch ns

/-- Helper: sequential single-name removals, the shape produced by the
rollback and reset loops. -/
def Ledger.removeSeq (l : Ledger) : List String → Ledger
  | [] => l
  | n :: ns => Ledger.removeSeq (l.remove n) ns

/-- Ordering used by `order_by("migration_id", "desc")`. -/
def idGe (a b : MigrationRecord) : Prop := b.migration_id ≤ a.migration_id

instance : DecidableRel idGe := fun a b => Nat.decLe b.migration_id a.migration_id

/-- Modelled from the spec: rows of the current maximum batch, ordered by
surrogate key descending, projected to names — the query
`where("batch", all().max("batch")).order_by("migration_id", "desc").get().pluck("migration")`. -/
def Ledger.latestBatchNames (l : Ledger) : List String :=
  (List.insertionSort idGe (l.rows.filter (fun rec => decide (rec.batch = l.maxBatch)))).map
    (fun rec => rec.migration)

/-- Modelled from the spec: all names ordered by surrogate key
descending — `order_by("migration_id", "desc").get().pluck("migration")`. -/
def Ledger.allNamesDesc (l : Ledger) : List String :=
  (List.insertionSort idGe l.rows).map (fun rec => rec.migration)

/-- Lexicographic comparison of character lists by code point — the
comparison Python's `list.sort()` applies to strings. -/
def charListLeB : List Char → List Char → Bool
  | [], _ => true
  | _ :: _, [] => false
  | a :: as, b :: bs =>
    if a.toNat < b.toNat then true
    else if b.toNat < a.toNat then false
    else charListLeB as bs

/-- Ascending lexicographic order on strings, as Python's `list.sort()`
produces for the filename lists here. -/
def strLe (a b : String) : Prop := charListLeB a.data b.data = true

instance : DecidableRel strLe :=
  fun a b => inferInstanceAs (Decidable (charListLeB a.data b.data = true))

/-- The parts of the outside world the engine consults: directory listings
(file entries only — `listdir` filtered by `isfile`), the working
directory, the set of fully-dotted paths at which `pydoc.locate` finds a
loadable migration class, and the filenames whose `up()` respectively
`down()` raises when invoked. -/
structure Env where
  dirs : List (String × List String)
  cwd : String
  units : List String
  upFails : List String
  downFails : List String
deriving DecidableEq

/-- File entries of a directory. -/
def Env.listdirFiles (env : Env) (d : String) : List String :=
  match env.dirs.lookup d with
  | some fs => fs
  | none => []

/-- Runner configuration captured at construction (`Migration.__init__`):
connection name, dry flag, whether a reporting collaborator
(`command_class`) is configured, and the migration directory argument. -/
structure Runner where
  connection : String
  dry : Bool
  command_class : Bool
  migration_directory_arg : String
deriving DecidableEq

/-- `self.migration_directory`: the constructor argument with slashes
normalized to dots (line 25). -/
def Runner.migration_directory (r : Runner) : String := slashesToDots r.migration_directory_arg

/-- Mutable per-Runner state: the ledger (reached through
`migration_model`) and the `last_migrations_ran` list. -/
structure RunnerState where
  ledger : Ledger
  last_migrations_ran : List String
deriving DecidableEq

/-- Runner state right after `__init__`: `last_migrations_ran` starts
empty (line 26); the ledger is whatever the database already holds. -/
def initialRunnerState (l : Ledger) : RunnerState := ⟨l, []⟩

/-- Observable calls the runner makes on its collaborators: a successful
instantiation of a migration class (with the connection argument passed,
if any), `up()`, `down()`, the ledger `create`, and the two delete
forms. -/
inductive Event where
  | instantiate (file : String) (conn : Option String)
  | applied (file : String)
  | reverted (file : String)
  | recorded (file : String) (batch : Nat)
  | removed (file : String)
  | removedMany (files : List String)
deriving DecidableEq

/-- Python exception kinds an engine run can end with. The spec names a
`MigrationNotFoundError`; it is included so statements can compare against
it. `typeError` models calling a non-callable (the `None` returned by
`pydoc.locate`); `unitError` models an exception raised inside a unit's
`up()` or `down()`. -/
inductive PyErr where
  | typeError
  | migrationNotFound
  | unitError (file : String)
deriving DecidableEq

/-- Result of one engine operation: the state as left behind (a Python
exception does not roll back object state), the events emitted before
returning or raising, and the raised exception, if any. -/
structure RunResult where
  state : RunnerState
  events : List Event
  error? : Option PyErr

/-- `get_unran_migrations` (lines 52-65): list the files of
`os.getcwd()` joined with the literal `databases/migrations` (the
directory string is hardcoded there, independently of the configured
migration directory), drop `__init__.py`, sort ascending, and keep the
names not present in the ledger. -/
def get_unran_migrations (env : Env) (st : RunnerState) : List String :=
  let directory_path := env.cwd ++ "/" ++ "databases/migrations"
  let all_migrations :=
    (env.listdirFiles directory_path).filter (fun f => decide (f ≠ "__init__.py"))
  let sorted := List.insertionSort strLe all_migrations
  sorted.filter (fun m => decide (m ∉ st.ledger.names))

/-- `get_ran_migrations` (lines 96-110): same hardcoded directory, keeping
the names that are present in the ledger. -/
def get_ran_migrations (env : Env) (st : RunnerState) : List String :=
  let directory_path := env.cwd ++ "/" ++ "databases/migrations"
  let all_migrations :=
    (env.listdirFiles directory_path).filter (fun f => decide (f ≠ "__init__.py"))
  let sorted := List.insertionSort strLe all_migrations
  sorted.filter (fun m => decide (m ∈ st.ledger.names))

/-- `get_rollback_migrations` (lines 67-73). -/
def get_rollback_migrations (st : RunnerState) : List String := st.ledger.latestBatchNames

/-- `get_all_migrations` (lines 75-83). -/
def get_all_migrations (st : RunnerState) (reverse : Bool) : List String :=
  if reverse then st.ledger.allNamesDesc else st.ledger.names

/-- `get_last_batch_number` (lines 85-86). -/
def get_last_batch_number (st : RunnerState) : Nat := st.ledger.maxBatch

/-- `delete_migration` (lines 88-89). -/
def delete_migration (st : RunnerState) (file_path : String) : RunnerState :=
  ⟨st.ledger.remove file_path, st.last_migrations_ran⟩

/-- `delete_migrations` (lines 202-203). -/
def delete_migrations (st : RunnerState) (migrations : List String) : RunnerState :=
  ⟨st.ledger.removeMany migrations, st.last_migrations_ran⟩

/-- The dotted path handed to `pydoc.locate` (lines 91-94, and inlined at
lines 116-122): the normalized migration directory, the filename with
`.py` removed, and the camelized join of the filename's
underscore-separated tokens after the first four, with `.py` removed. -/
def locateKey (r : Runner) (file_name : String) : String :=
  let migration_name := camelize (stripDotPy (joinUnderscore ((pySplitUnderscore file_name).drop 4)))
  let base := stripDotPy file_name
  r.migration_directory ++ "." ++ base ++ "." ++ migration_name

/-- `pydoc.locate`: `some ()` when a loadable unit exists at the dotted
path, `none` otherwise (`pydoc.locate` returns `None` rather than
raising). -/
def pyLocate (env : Env) (key : String) : Option Unit :=
  if key ∈ env.units then some () else none

/-- The loop body of `migrate` (lines 115-152) over the already-computed
pending list. Each iteration: locate the class, append the filename to
`last_migrations_ran`, then instantiate the located class with the
configured connection — a `TypeError` when `locate` returned `None` —
then `up()`; under preview (`output`) with a reporting collaborator the
rendered-SQL branch ends in `continue`, skipping the ledger `create`;
otherwise the row is recorded with the batch computed before the loop. -/
def migrateLoop (env : Env) (r : Runner) (output : Bool) (batch : Nat) :
    List String → RunnerState → RunResult
  | [], st => ⟨st, [], none⟩
  | m :: rest, st =>
    let st1 : RunnerState := ⟨st.ledger, st.last_migrations_ran ++ [m]⟩
    match pyLocate env (locateKey r m) with
    | none => ⟨st1, [], some PyErr.typeError⟩
    | some _ =>
      if m ∈ env.upFails then
        ⟨st1, [Event.instantiate m (some r.connection)], some (PyErr.unitError m)⟩
      else if output && r.command_class then
        let res := migrateLoop env r output batch rest st1
        ⟨res.state, Event.instantiate m (some r.connection) :: Event.applied m :: res.events,
          res.error?⟩
      else
        let st2 : RunnerState := ⟨st1.ledger.record m batch, st1.last_migrations_ran⟩
        let res := migrateLoop env r output batch rest st2
        ⟨res.state,
          Event.instantiate m (some r.connection) :: Event.applied m ::
            Event.recorded m batch :: res.events,
          res.error?⟩

/-- `migrate` (lines 112-152): compute `batch` as the last batch number
plus one, then process every unran migration. -/
def migrate (env : Env) (r : Runner) (st : RunnerState) (output : Bool) : RunResult :=
  migrateLoop env r output (get_last_batch_number st + 1) (get_unran_migrations env st) st

/-- The loop body of `rollback` (lines 155-191): locate and instantiate
with the configured connection, `down()`, and — except under preview with
a reporting collaborator, whose branch ends in `continue` — delete the
row for that name. -/
def rollbackLoop (env : Env) (r : Runner) (output : Bool) :
    List String → RunnerState → RunResult
  | [], st => ⟨st, [], none⟩
  | m :: rest, st =>
    match pyLocate env (locateKey r m) with
    | none => ⟨st, [], some PyErr.typeError⟩
    | some _ =>
      if m ∈ env.downFails then
        ⟨st, [Event.instantiate m (some r.connection)], some (PyErr.unitError m)⟩
      else if output && r.command_class then
        let res := rollbackLoop env r output rest st
        ⟨res.state, Event.instantiate m (some r.connection) :: Event.reverted m :: res.events,
          res.error?⟩
      else
        let res := rollbackLoop env r output rest (delete_migration st m)
        ⟨res.state,
          Event.instantiate m (some r.connection) :: Event.reverted m ::
            Event.removed m :: res.events,
          res.error?⟩

/-- `rollback` (lines 154-191): process the names of the latest batch. -/
def rollback (env : Env) (r : Runner) (st : RunnerState) (output : Bool) : RunResult :=
  rollbackLoop env r output (get_rollback_migrations st) st

/-- The loop body of `reset` (lines 211-226): locate and instantiate with
the configured connection, `down()`, then `delete_migration` followed by
the redundant `delete_migrations([migration])`. -/
def resetLoop (env : Env) (r : Runner) : List String → RunnerState → RunResult
  | [], st => ⟨st, [], none⟩
  | m :: rest, st =>
    match pyLocate env (locateKey r m) with
    | none => ⟨st, [], some PyErr.typeError⟩
    | some _ =>
      if m ∈ env.downFails then
        ⟨st, [Event.instantiate m (some r.connection)], some (PyErr.unitError m)⟩
      else
        let res := resetLoop env r rest (delete_migrations (delete_migration st m) [m])
        ⟨res.state,
          Event.instantiate m (some r.connection) :: Event.reverted m ::
            Event.removed m :: Event.removedMany [m] :: res.events,
          res.error?⟩

/-- `reset` (lines 210-229): process all ledger names in descending
surrogate-key order. -/
def reset (env : Env) (r : Runner) (st : RunnerState) : RunResult :=
  resetLoop env r (get_all_migrations st true) st

/-- The loop body of `rollback_all` (lines 194-198): locate and
instantiate with NO connection argument (`self.locate(migration)()`),
`down()`, then `delete_migration`. -/
def rollbackAllLoop (env : Env) (r : Runner) : List String → RunnerState → RunResult
  | [], st => ⟨st, [], none⟩
  | m :: rest, st =>
    match pyLocate env (locateKey r m) with
    | none => ⟨st, [], some PyErr.typeError⟩
    | some _ =>
      if m ∈ env.downFails then
        ⟨st, [Event.instantiate m none], some (PyErr.unitError m)⟩
      else
        let res := rollbackAllLoop env r rest (delete_migration st m)
        ⟨res.state,
          Event.instantiate m none :: Event.reverted m :: Event.removed m :: res.events,
          res.error?⟩

/-- `rollback_all` (lines 193-200): process all ledger names in insertion
order, then — only when no exception escaped the loop — delete the
accumulated name list again. -/
def rollback_all (env : Env) (r : Runner) (st : RunnerState) : RunResult :=
  let names := get_all_migrations st false
  let res := rollbackAllLoop env r names st
  match res.error? with
  | some e => ⟨res.state, res.events, some e⟩
  | none =>
    ⟨delete_migrations res.state names, res.events ++ [Event.removedMany names], none⟩

/-- `refresh` (lines 231-233): `reset()` then `migrate()`; when `reset`
raises, `migrate` never runs. -/
def refresh (env : Env) (r : Runner) (st : RunnerState) : RunResult :=
  let res := reset env r st
  match res.error? with
  | some e => ⟨res.state, res.events, some e⟩
  | none =>
    let res2 := migrate env r res.state false
    ⟨res2.state, res.events ++ res2.events, res2.error?⟩

/-- Names and batches of the `create` calls among a run's events. -/
def recordedOf (evs : List Event) : List (String × Nat) :=
  evs.filterMap (fun e =>
    match e with
    | Event.recorded m b => some (m, b)
    | _ => none)

/-- Names of the `delete_migration` calls among a run's events. -/
def removedOf (evs : List Event) : List String :=
  evs.filterMap (fun e =>
    match e with
    | Event.removed m => some m
    | _ => none)

/-- Names of the `down()` calls among a run's events. -/
def revertedOf (evs : List Event) : List String :=
  evs.filterMap (fun e =>
    match e with
    | Event.reverted m => some m
    | _ => none)

/-- Instantiations among a run's events, each with the connection argument
that was passed (or `none` when the class was called without one). -/
def instantiationsOf (evs : List Event) : List (String × Option String) :=
  evs.filterMap (fun e =>
    match e with
    | Event.instantiate m c => some (m, c)
    | _ => none)

/-- Concrete scenario: two migration files on disk, both resolvable. -/
def demoEnv : Env :=
  ⟨[("app/databases/migrations",
      ["2021_01_01_000001_create_users.py", "2021_01_01_000002_create_posts.py"])],
    "app",
    ["databases.migrations.2021_01_01_000001_create_users.CreateUsers",
     "databases.migrations.2021_01_01_000002_create_posts.CreatePosts"],
    [], []⟩

/-- Concrete runner without a reporting collaborator. -/
def demoRunner : Runner := ⟨"default", false, false, "databases/migrations"⟩

/-- Concrete runner with a reporting collaborator configured. -/
def demoRunnerCC : Runner := ⟨"default", false, true, "databases/migrations"⟩

/-- Concrete starting state with an empty ledger. -/
def demoState : RunnerState := ⟨⟨[], 0⟩, []⟩

/-- Concrete scenario: two files on disk, only the first resolvable. -/
def missingEnv : Env :=
  ⟨[("app/databases/migrations",
      ["2021_01_01_000001_create_users.py", "2021_01_01_000002_create_posts.py"])],
    "app",
    ["databases.migrations.2021_01_01_000001_create_users.CreateUsers"],
    [], []⟩

/-- Concrete scenario: three files, all resolvable, for rollback runs. -/
def threeEnv : Env :=
  ⟨[("app/databases/migrations",
      ["2021_01_01_000001_create_users.py", "2021_01_01_000002_create_posts.py",
       "2021_01_01_000003_add_flag.py"])],
    "app",
    ["databases.migrations.2021_01_01_000001_create_users.CreateUsers",
     "databases.migrations.2021_01_01_000002_create_posts.CreatePosts",
     "databases.migrations.2021_01_01_000003_add_flag.AddFlag"],
    [], []⟩

/-- Concrete state whose ledger holds two applied batches. -/
def twoBatchState : RunnerState :=
  ⟨⟨[⟨0, "2021_01_01_000001_create_users.py", 1⟩,
     ⟨1, "2021_01_01_000002_create_posts.py", 1⟩,
     ⟨2, "2021_01_01_000003_add_flag.py", 2⟩], 3⟩, []⟩

/-- Concrete runner with a non-default connection name. -/
def analyticsRunner : Runner := ⟨"analytics", false, false, "databases/migrations"⟩

/-- Concrete state whose ledger holds one applied migration. -/
def oneRowState : RunnerState :=
  ⟨⟨[⟨0, "2021_01_01_000001_create_users.py", 1⟩], 1⟩, []⟩

/-- Concrete scenario for the configured-directory check: the configured
directory `custom/migrations` holds one file, the hardcoded
`databases/migrations` another. -/
def customDirEnv : Env :=
  ⟨[("app/custom/migrations", ["2021_01_01_000001_alpha.py"]),
    ("app/databases/migrations", ["2021_01_01_000001_beta.py"])],
    "app", [], [], []⟩

/-- Concrete runner configured with a custom migration directory. -/
def customDirRunner : Runner := ⟨"default", false, false, "custom/migrations"⟩

theorem charListLeB_total : ∀ as bs : List Char,
    charListLeB as bs = true ∨ charListLeB bs as = true
  | [], _ => Or.inl rfl
  | _ :: _, [] => Or.inr rfl
  | a :: as, b :: bs => by
    rcases Nat.lt_trichotomy a.toNat b.toNat with h | h | h
    · exact Or.inl (by simp [charListLeB, h])
    · rcases charListLeB_total as bs with ih | ih
      · exact Or.inl (by simp [charListLeB, h, ih])
      · exact Or.inr (by simp [charListLeB, h, ih])
    · exact Or.inr (by simp [charListLeB, h])

theorem charListLeB_trans : ∀ as bs cs : List Char,
    charListLeB as bs = true → charListLeB bs cs = true → charListLeB as cs = true
  | [], _, _, _, _ => rfl
  | _ :: _, [], _, h1, _ => by simp [charListLeB] at h1
  | _ :: _, _ :: _, [], _, h2 => by simp [charListLeB] at h2
  | a :: as, b :: bs, c :: cs, h1, h2 => by
    simp only [charListLeB] at h1 h2 ⊢
    by_cases hab : a.toNat < b.toNat
    · by_cases hbc : b.toNat < c.toNat
      · simp [Nat.lt_trans hab hbc]
      · by_cases hcb : c.toNat < b.toNat
        · simp [hbc, hcb] at h2
        · have hac : a.toNat < c.toNat := by omega
          simp [hac]
    · by_cases hba : b.toNat < a.toNat
      · simp [hab, hba] at h1
      · by_cases hbc : b.toNat < c.toNat
        · have hac : a.toNat < c.toNat := by omega
          simp [hac]
        · by_cases hcb : c.toNat < b.toNat
          · simp [hbc, hcb] at h2
          · have hac : ¬ a.toNat < c.toNat := by omega
            have hca : ¬ c.toNat < a.toNat := by omega
            simp only [hab, hba, if_neg, ite_false] at h1
            simp only [hbc, hcb, if_neg, ite_false] at h2
            simp only [hac, hca, if_neg, ite_false]
            exact charListLeB_trans as bs cs h1 h2

theorem strLe_isTotal : IsTotal String strLe := ⟨fun a b => charListLeB_total a.data b.data⟩

theorem strLe_isTrans : IsTrans String strLe :=
  ⟨fun a b c h1 h2 => charListLeB_trans a.data b.data c.data h1 h2⟩

theorem idGe_isTotal : IsTotal MigrationRecord idGe :=
  ⟨fun a b => Nat.le_total b.migration_id a.migration_id⟩

theorem idGe_isTrans : IsTrans MigrationRecord idGe := ⟨fun _ _ _ h1 h2 => le_trans h2 h1⟩

theorem Ledger.names_record (l : Ledger) (n : String) (b : Nat) :
    (l.record n b).names = l.names ++ [n] := by
  simp [Ledger.record, Ledger.names]

theorem Ledger.names_recordAll (b : Nat) :
    ∀ ns (l : Ledger), (l.recordAll b ns).names = l.names ++ ns
  | [], l => by simp [Ledger.recordAll]
  | n :: ns, l => by
    rw [Ledger.recordAll, Ledger.names_recordAll b ns, Ledger.names_record]
    simp

theorem Ledger.recordAll_rows (b : Nat) :
    ∀ ns (l : Ledger), ∃ extra, (l.recordAll b ns).rows = l.rows ++ extra
      ∧ ∀ rec ∈ extra, rec.batch = b
  | [], l => ⟨[], by simp [Ledger.recordAll], by simp⟩
  | n :: ns, l => by
    obtain ⟨extra, he, hb⟩ := Ledger.recordAll_rows b ns (l.record n b)
    refine ⟨⟨l.nextId, n, b⟩ :: extra, ?_, ?_⟩
    · rw [Ledger.recordAll, he]
      simp [Ledger.record]
    · intro rec hrec
      rcases List.mem_cons.mp hrec with h | h
      · rw [h]
      · exact hb rec h

theorem Ledger.removeSeq_spec :
    ∀ ns (l : Ledger),
      (l.removeSeq ns).rows = l.rows.filter (fun rec => decide (rec.migration ∉ ns))
        ∧ (l.removeSeq ns).nextId = l.nextId
  | [], l => by simp [Ledger.removeSeq]
  | n :: ns, l => by
    have ih := Ledger.removeSeq_spec ns (l.remove n)
    rw [Ledger.removeSeq]
    refine ⟨?_, ?_⟩
    · rw [ih.1]
      simp only [Ledger.remove, List.filter_filter]
      apply List.filter_congr
      intro rec _
      rw [← Bool.decide_and]
      exact decide_eq_decide.mpr (by simp [not_or, and_comm])
    · rw [ih.2]
      rfl

theorem Ledger.maxBatch_of_rows_nil {l : Ledger} (h : l.rows = []) : l.maxBatch = 0 := by
  simp [Ledger.maxBatch, h]

theorem migrateLoop_lmr_mono (env : Env) (r : Runner) (output : Bool) (batch : Nat) :
    ∀ l st, st.last_migrations_ran <+:
      (migrateLoop env r output batch l st).state.last_migrations_ran
  | [], st => by simp [migrateLoop]
  | m :: rest, st => by
    have hstep : st.last_migrations_ran <+: st.last_migrations_ran ++ [m] :=
      List.prefix_append _ _
    rw [migrateLoop]
    cases hloc : pyLocate env (locateKey r m) with
    | none => exact hstep
    | some u =>
      by_cases hup : m ∈ env.upFails
      · simp only [hup, if_pos]
        exact hstep
      · by_cases hskip : (output && r.command_class) = true
        · simp only [hup, if_neg, not_false_iff, hskip, if_pos]
          exact hstep.trans
            (migrateLoop_lmr_mono env r output batch rest ⟨st.ledger, st.last_migrations_ran ++ [m]⟩)
        · simp only [hup, if_neg, not_false_iff, hskip, if_false, Bool.not_eq_true]
          exact hstep.trans
            (migrateLoop_lmr_mono env r output batch rest
              ⟨(Ledger.record st.ledger m batch), st.last_migrations_ran ++ [m]⟩)

theorem migrateLoop_ok (env : Env) (r : Runner) (output : Bool) (batch : Nat)
    (hskip : (output && r.command_class) = false) :
    ∀ l st, (migrateLoop env r output batch l st).error? = none →
      (migrateLoop env r output batch l st).state =
          ⟨st.ledger.recordAll batch l, st.last_migrations_ran ++ l⟩
        ∧ recordedOf (migrateLoop env r output batch l st).events =
          l.map (fun m => (m, batch))
  | [], st, _ => by simp [migrateLoop, Ledger.recordAll, recordedOf]
  | m :: rest, st, hok => by
    simp only [migrateLoop] at hok ⊢
    cases hloc : pyLocate env (locateKey r m) with
    | none => simp [hloc] at hok
    | some u =>
      by_cases hup : m ∈ env.upFails
      · simp [hloc, hup] at hok
      · simp only [hloc, hup, if_neg, not_false_iff, hskip, Bool.false_eq_true, if_false] at hok ⊢
        have ih := migrateLoop_ok env r output batch hskip rest
          ⟨st.ledger.record m batch, st.last_migrations_ran ++ [m]⟩ hok
        refine ⟨?_, ?_⟩
        · rw [ih.1]
          simp [Ledger.recordAll]
        · simp only [recordedOf, List.filterMap_cons] at ih ⊢
          rw [ih.2]
          simp [List.map_cons]

theorem migrateLoop_skip (env : Env) (r : Runner) (output : Bool) (batch : Nat)
    (hskip : (output && r.command_class) = true) :
    ∀ l st, (migrateLoop env r output batch l st).state.ledger = st.ledger
      ∧ recordedOf (migrateLoop env r output batch l st).events = []
      ∧ ((migrateLoop env r output batch l st).error? = none →
          (migrateLoop env r output batch l st).state.last_migrations_ran =
            st.last_migrations_ran ++ l)
  | [], st => by simp [migrateLoop, recordedOf]
  | m :: rest, st => by
    simp only [migrateLoop]
    cases hloc : pyLocate env (locateKey r m) with
    | none => simp [recordedOf]
    | some u =>
      by_cases hup : m ∈ env.upFails
      · simp [hup, recordedOf]
      · have ih := migrateLoop_skip env r output batch hskip rest
          ⟨st.ledger, st.last_migrations_ran ++ [m]⟩
        simp only [hup, if_neg, not_false_iff, hskip, if_pos]
        refine ⟨ih.1, ?_, ?_⟩
        · simp only [recordedOf, List.filterMap_cons] at ih ⊢
          exact ih.2.1
        · intro hok
          rw [ih.2.2 hok]
          simp

theorem migrateLoop_lmr_ok (env : Env) (r : Runner) (output : Bool) (batch : Nat) :
    ∀ l st, (migrateLoop env r output batch l st).error? = none →
      (migrateLoop env r output batch l st).state.last_migrations_ran =
        st.last_migrations_ran ++ l
  | [], st, _ => by simp [migrateLoop]
  | m :: rest, st, hok => by
    simp only [migrateLoop] at hok ⊢
    cases hloc : pyLocate env (locateKey r m) with
    | none => simp [hloc] at hok
    | some u =>
      by_cases hup : m ∈ env.upFails
      · simp [hloc, hup] at hok
      · by_cases hskip : (output && r.command_class) = true
        · simp only [hloc, hup, if_neg, not_false_iff, hskip, if_pos] at hok ⊢
          rw [migrateLoop_lmr_ok env r output batch rest
            ⟨st.ledger, st.last_migrations_ran ++ [m]⟩ hok]
          simp
        · simp only [hloc, hup, if_neg, not_false_iff, hskip, if_false, Bool.not_eq_true] at hok ⊢
          rw [migrateLoop_lmr_ok env r output batch rest
            ⟨st.ledger.record m batch, st.last_migrations_ran ++ [m]⟩ hok]
          simp

theorem migrateLoop_rows (env : Env) (r : Runner) (output : Bool) (batch : Nat) :
    ∀ l st, ∃ extra,
      (migrateLoop env r output batch l st).state.ledger.rows = st.ledger.rows ++ extra
        ∧ ∀ rec ∈ extra, rec.batch = batch
  | [], st => ⟨[], by simp [migrateLoop], by simp⟩
  | m :: rest, st => by
    simp only [migrateLoop]
    cases hloc : pyLocate env (locateKey r m) with
    | none => exact ⟨[], by simp, by simp⟩
    | some u =>
      by_cases hup : m ∈ env.upFails
      · exact ⟨[], by simp [hup], by simp⟩
      · by_cases hskip : (output && r.command_class) = true
        · obtain ⟨extra, he, hb⟩ := migrateLoop_rows env r output batch rest
            ⟨st.ledger, st.last_migrations_ran ++ [m]⟩
          exact ⟨extra, by simp only [hup, if_neg, not_false_iff, hskip, if_pos]; exact he, hb⟩
        · obtain ⟨extra, he, hb⟩ := migrateLoop_rows env r output batch rest
            ⟨st.ledger.record m batch, st.last_migrations_ran ++ [m]⟩
          refine ⟨⟨st.ledger.nextId, m, batch⟩ :: extra, ?_, ?_⟩
          · simp only [hup, if_neg, not_false_iff, hskip, if_false, Bool.not_eq_true]
            rw [he]
            simp [Ledger.record]
          · intro rec hrec
            rcases List.mem_cons.mp hrec with h | h
            · rw [h]
            · exact hb rec h

theorem migrateLoop_error_indep (env : Env) (r : Runner) (output : Bool) (batch : Nat) :
    ∀ l st st', (migrateLoop env r output batch l st).error? =
      (migrateLoop env r output batch l st').error?
  | [], _, _ => rfl
  | m :: rest, st, st' => by
    simp only [migrateLoop]
    cases hloc : pyLocate env (locateKey r m) with
    | none => rfl
    | some u =>
      by_cases hup : m ∈ env.upFails
      · simp [hup]
      · by_cases hskip : (output && r.command_class) = true
        · simp only [hup, if_neg, not_false_iff, hskip, if_pos]
          exact migrateLoop_error_indep env r output batch rest _ _
        · simp only [hup, if_neg, not_false_iff, hskip, if_false, Bool.not_eq_true]
          exact migrateLoop_error_indep env r output batch rest _ _

theorem migrateLoop_conns (env : Env) (r : Runner) (output : Bool) (batch : Nat) :
    ∀ l st pr, pr ∈ instantiationsOf (migrateLoop env r output batch l st).events →
      pr.2 = some r.connection
  | [], st, pr, h => by simp [migrateLoop, instantiationsOf] at h
  | m :: rest, st, pr, h => by
    simp only [migrateLoop] at h
    revert h
    cases hloc : pyLocate env (locateKey r m) with
    | none => intro h; simp [instantiationsOf] at h
    | some u =>
      by_cases hup : m ∈ env.upFails
      · intro h
        simp [hup, instantiationsOf] at h
        rw [h]
      · by_cases hskip : (output && r.command_class) = true
        · simp only [hup, if_neg, not_false_iff, hskip, if_pos]
          intro h
          simp only [instantiationsOf, List.filterMap_cons] at h
          rcases List.mem_cons.mp h with he | he
          · rw [he]
          · exact migrateLoop_conns env r output batch rest _ pr he
        · simp only [hup, if_neg, not_false_iff, hskip, if_false, Bool.not_eq_true]
          intro h
          simp only [instantiationsOf, List.filterMap_cons] at h
          rcases List.mem_cons.mp h with he | he
          · rw [he]
          · exact migrateLoop_conns env r output batch rest _ pr he

theorem migrateLoop_good_split (env : Env) (r : Runner) (batch : Nat) :
    ∀ pre l st, (∀ m ∈ pre, pyLocate env (locateKey r m) ≠ none ∧ m ∉ env.upFails) →
      (migrateLoop env r false batch (pre ++ l) st).state =
          (migrateLoop env r false batch l
            ⟨st.ledger.recordAll batch pre, st.last_migrations_ran ++ pre⟩).state
        ∧ (migrateLoop env r false batch (pre ++ l) st).error? =
          (migrateLoop env r false batch l
            ⟨st.ledger.recordAll batch pre, st.last_migrations_ran ++ pre⟩).error?
  | [], l, st, _ => by
    constructor <;> (congr 1 <;> simp [Ledger.recordAll])
  | m :: pre, l, st, hgood => by
    obtain ⟨hloc, hup⟩ := hgood m (List.mem_cons_self m pre)
    obtain ⟨u, hu⟩ : ∃ u, pyLocate env (locateKey r m) = some u := by
      cases hl : pyLocate env (locateKey r m) with
      | none => exact absurd hl hloc
      | some u => exact ⟨u, rfl⟩
    have ih := migrateLoop_good_split env r batch pre l
      ⟨st.ledger.record m batch, st.last_migrations_ran ++ [m]⟩
      (fun m' hm' => hgood m' (List.mem_cons_of_mem m hm'))
    have hst : (⟨(st.ledger.record m batch).recordAll batch pre,
        (st.last_migrations_ran ++ [m]) ++ pre⟩ : RunnerState) =
        ⟨st.ledger.recordAll batch (m :: pre), st.last_migrations_ran ++ (m :: pre)⟩ := by
      simp [Ledger.recordAll]
    simp only [List.cons_append, migrateLoop, hu, hup, if_neg, not_false_iff,
      Bool.false_and, Bool.false_eq_true, if_false]
    refine ⟨ih.1.trans ?_, ih.2.trans ?_⟩
    · show (migrateLoop env r false batch l ⟨(st.ledger.record m batch).recordAll batch pre,
        (st.last_migrations_ran ++ [m]) ++ pre⟩).state = _
      rw [hst]
    · show (migrateLoop env r false batch l ⟨(st.ledger.record m batch).recordAll batch pre,
        (st.last_migrations_ran ++ [m]) ++ pre⟩).error? = _
      rw [hst]

theorem rollbackLoop_ok (env : Env) (r : Runner) (output : Bool)
    (hskip : (output && r.command_class) = false) :
    ∀ l st, (rollbackLoop env r output l st).error? = none →
      (rollbackLoop env r output l st).state = ⟨st.ledger.removeSeq l, st.last_migrations_ran⟩
        ∧ removedOf (rollbackLoop env r output l st).events = l
        ∧ revertedOf (rollbackLoop env r output l st).events = l
  | [], st, _ => by simp [rollbackLoop, Ledger.removeSeq, removedOf, revertedOf]
  | m :: rest, st, hok => by
    simp only [rollbackLoop] at hok ⊢
    cases hloc : pyLocate env (locateKey r m) with
    | none => simp [hloc] at hok
    | some u =>
      by_cases hdn : m ∈ env.downFails
      · simp [hloc, hdn] at hok
      · simp only [hloc, hdn, if_neg, not_false_iff, hskip, Bool.false_eq_true, if_false] at hok ⊢
        have ih := rollbackLoop_ok env r output hskip rest (delete_migration st m) hok
        refine ⟨?_, ?_, ?_⟩
        · rw [ih.1]
          rfl
        · simp only [removedOf, List.filterMap_cons] at ih ⊢
          rw [ih.2.1]
        · simp only [revertedOf, List.filterMap_cons] at ih ⊢
          rw [ih.2.2]

theorem rollbackLoop_skip (env : Env) (r : Runner) (output : Bool)
    (hskip : (output && r.command_class) = true) :
    ∀ l st, (rollbackLoop env r output l st).state = st
      ∧ removedOf (rollbackLoop env r output l st).events = []
  | [], st => by simp [rollbackLoop, removedOf]
  | m :: rest, st => by
    simp only [rollbackLoop]
    cases hloc : pyLocate env (locateKey r m) with
    | none => simp [removedOf]
    | some u =>
      by_cases hdn : m ∈ env.downFails
      · simp [hdn, removedOf]
      · have ih := rollbackLoop_skip env r output hskip rest st
        simp only [hdn, if_neg, not_false_iff, hskip, if_pos]
        refine ⟨ih.1, ?_⟩
        simp only [removedOf, List.filterMap_cons] at ih ⊢
        exact ih.2

theorem rollbackLoop_lmr (env : Env) (r : Runner) (output : Bool) :
    ∀ l st, (rollbackLoop env r output l st).state.last_migrations_ran =
      st.last_migrations_ran
  | [], st => rfl
  | m :: rest, st => by
    simp only [rollbackLoop]
    cases hloc : pyLocate env (locateKey r m) with
    | none => rfl
    | some u =>
      by_cases hdn : m ∈ env.downFails
      · simp [hdn]
      · by_cases hskip : (output && r.command_class) = true
        · simp only [hdn, if_neg, not_false_iff, hskip, if_pos]
          exact rollbackLoop_lmr env r output rest st
        · simp only [hdn, if_neg, not_false_iff, hskip, if_false, Bool.not_eq_true]
          exact rollbackLoop_lmr env r output rest (delete_migration st m)

theorem rollbackLoop_conns (env : Env) (r : Runner) (output : Bool) :
    ∀ l st pr, pr ∈ instantiationsOf (rollbackLoop env r output l st).events →
      pr.2 = some r.connection
  | [], st, pr, h => by simp [rollbackLoop, instantiationsOf] at h
  | m :: rest, st, pr, h => by
    simp only [rollbackLoop] at h
    revert h
    cases hloc : pyLocate env (locateKey r m) with
    | none => intro h; simp [instantiationsOf] at h
    | some u =>
      by_cases hdn : m ∈ env.downFails
      · intro h
        simp [hdn, instantiationsOf] at h
        rw [h]
      · by_cases hskip : (output && r.command_class) = true
        · simp only [hdn, if_neg, not_false_iff, hskip, if_pos]
          intro h
          simp only [instantiationsOf, List.filterMap_cons] at h
          rcases List.mem_cons.mp h with he | he
          · rw [he]
          · exact rollbackLoop_conns env r output rest _ pr he
        · simp only [hdn, if_neg, not_false_iff, hskip, if_false, Bool.not_eq_true]
          intro h
          simp only [instantiationsOf, List.filterMap_cons] at h
          rcases List.mem_cons.mp h with he | he
          · rw [he]
          · exact rollbackLoop_conns env r output rest _ pr he

theorem remove_removeMany_single (l : Ledger) (m : String) :
    ((l.remove m).removeMany [m]).rows = l.rows.filter (fun rec => decide (rec.migration ≠ m))
      ∧ ((l.remove m).removeMany [m]).nextId = l.nextId := by
  refine ⟨?_, rfl⟩
  simp only [Ledger.remove, Ledger.removeMany, List.filter_filter]
  apply List.filter_congr
  intro rec _
  rw [← Bool.decide_and]
  exact decide_eq_decide.mpr (by simp)

theorem resetLoop_ok (env : Env) (r : Runner) :
    ∀ l st, (resetLoop env r l st).error? = none →
      (resetLoop env r l st).state.ledger.rows =
          st.ledger.rows.filter (fun rec => decide (rec.migration ∉ l))
        ∧ (resetLoop env r l st).state.ledger.nextId = st.ledger.nextId
        ∧ (resetLoop env r l st).state.last_migrations_ran = st.last_migrations_ran
        ∧ removedOf (resetLoop env r l st).events = l
        ∧ revertedOf (resetLoop env r l st).events = l
  | [], st, _ => by simp [resetLoop, removedOf, revertedOf]
  | m :: rest, st, hok => by
    simp only [resetLoop] at hok ⊢
    cases hloc : pyLocate env (locateKey r m) with
    | none => simp [hloc] at hok
    | some u =>
      by_cases hdn : m ∈ env.downFails
      · simp [hloc, hdn] at hok
      · simp only [hloc, hdn, if_neg, not_false_iff] at hok ⊢
        have ih := resetLoop_ok env r rest (delete_migrations (delete_migration st m) [m]) hok
        have hstep := remove_removeMany_single st.ledger m
        refine ⟨?_, ?_, ?_, ?_, ?_⟩
        · rw [ih.1]
          show List.filter _ ((st.ledger.remove m).removeMany [m]).rows = _
          rw [hstep.1, List.filter_filter]
          apply List.filter_congr
          intro rec _
          rw [← Bool.decide_and]
          exact decide_eq_decide.mpr (by simp [not_or, and_comm])
        · rw [ih.2.1]
          exact hstep.2
        · exact ih.2.2.1
        · simp only [removedOf, List.filterMap_cons] at ih ⊢
          rw [ih.2.2.2.1]
        · simp only [revertedOf, List.filterMap_cons] at ih ⊢
          rw [ih.2.2.2.2]

theorem resetLoop_lmr (env : Env) (r : Runner) :
    ∀ l st, (resetLoop env r l st).state.last_migrations_ran = st.last_migrations_ran
  | [], st => rfl
  | m :: rest, st => by
    simp only [resetLoop]
    cases hloc : pyLocate env (locateKey r m) with
    | none => rfl
    | some u =>
      by_cases hdn : m ∈ env.downFails
      · simp [hdn]
      · simp only [hdn, if_neg, not_false_iff]
        exact resetLoop_lmr env r rest (delete_migrations (delete_migration st m) [m])

theorem resetLoop_conns (env : Env) (r : Runner) :
    ∀ l st pr, pr ∈ instantiationsOf (resetLoop env r l st).events →
      pr.2 = some r.connection
  | [], st, pr, h => by simp [resetLoop, instantiationsOf] at h
  | m :: rest, st, pr, h => by
    simp only [resetLoop] at h
    revert h
    cases hloc : pyLocate env (locateKey r m) with
    | none => intro h; simp [instantiationsOf] at h
    | some u =>
      by_cases hdn : m ∈ env.downFails
      · intro h
        simp [hdn, instantiationsOf] at h
        rw [h]
      · simp only [hdn, if_neg, not_false_iff]
        intro h
        simp only [instantiationsOf, List.filterMap_cons] at h
        rcases List.mem_cons.mp h with he | he
        · rw [he]
        · exact resetLoop_conns env r rest _ pr he

theorem rollbackAllLoop_conns (env : Env) (r : Runner) :
    ∀ l st pr, pr ∈ instantiationsOf (rollbackAllLoop env r l st).events →
      pr.2 = none
  | [], st, pr, h => by simp [rollbackAllLoop, instantiationsOf] at h
  | m :: rest, st, pr, h => by
    simp only [rollbackAllLoop] at h
    revert h
    cases hloc : pyLocate env (locateKey r m) with
    | none => intro h; simp [instantiationsOf] at h
    | some u =>
      by_cases hdn : m ∈ env.downFails
      · intro h
        simp [hdn, instantiationsOf] at h
        rw [h]
      · simp only [hdn, if_neg, not_false_iff]
        intro h
        simp only [instantiationsOf, List.filterMap_cons] at h
        rcases List.mem_cons.mp h with he | he
        · rw [he]
        · exact rollbackAllLoop_conns env r rest _ pr he

theorem rollbackAllLoop_lmr (env : Env) (r : Runner) :
    ∀ l st, (rollbackAllLoop env r l st).state.last_migrations_ran =
      st.last_migrations_ran
  | [], st => rfl
  | m :: rest, st => by
    simp only [rollbackAllLoop]
    cases hloc : pyLocate env (locateKey r m) with
    | none => rfl
    | some u =>
      by_cases hdn : m ∈ env.downFails
      · simp [hdn]
      · simp only [hdn, if_neg, not_false_iff]
        exact rollbackAllLoop_lmr env r rest (delete_migration st m)

theorem get_unran_mem (env : Env) (st : RunnerState) (m : String) :
    m ∈ get_unran_migrations env st ↔
      m ∈ env.listdirFiles (env.cwd ++ "/" ++ "databases/migrations")
        ∧ m ≠ "__init__.py" ∧ m ∉ st.ledger.names := by
  unfold get_unran_migrations
  rw [List.mem_filter, (List.perm_insertionSort strLe _).mem_iff, List.mem_filter]
  simp [and_assoc]

theorem get_unran_sorted (env : Env) (st : RunnerState) :
    List.Sorted strLe (get_unran_migrations env st) := by
  haveI := strLe_isTotal
  haveI := strLe_isTrans
  exact List.Pairwise.filter _ (List.sorted_insertionSort strLe _)

theorem get_unran_congr (env : Env) {st st' : RunnerState}
    (h : st.ledger.names = st'.ledger.names) :
    get_unran_migrations env st = get_unran_migrations env st' := by
  unfold get_unran_migrations
  simp only [h]

theorem migrate_ok_unran_nil (env : Env) (r : Runner) (st : RunnerState)
    (hok : (migrate env r st false).error? = none) :
    get_unran_migrations env (migrate env r st false).state = [] := by
  have hstate := (migrateLoop_ok env r false (get_last_batch_number st + 1)
    (by simp) (get_unran_migrations env st) st hok).1
  have hnames : (migrate env r st false).state.ledger.names =
      st.ledger.names ++ get_unran_migrations env st := by
    show (migrateLoop env r false (get_last_batch_number st + 1)
      (get_unran_migrations env st) st).state.ledger.names = _
    rw [hstate]
    exact Ledger.names_recordAll _ _ _
  rw [List.eq_nil_iff_forall_not_mem]
  intro a ha
  rw [get_unran_mem] at ha
  have hmem : a ∈ (migrate env r st false).state.ledger.names := by
    rw [hnames]
    by_cases hst : a ∈ st.ledger.names
    · exact List.mem_append_left _ hst
    · refine List.mem_append_right _ ?_
      rw [get_unran_mem]
      exact ⟨ha.1, ha.2.1, hst⟩
  exact ha.2.2 hmem

/-- C2: for every ledger state with no errors during the run, all records
inserted by a single `migrate()` call carry the same batch number, equal to
the maximum batch value present in the ledger before the call plus one, and
equal to 1 when the ledger was empty. -/
theorem migrate_single_batch_number (env : Env) (r : Runner) (st : RunnerState) (output : Bool)
    (_hok : (migrate env r st output).error? = none) :
    ∃ extra, (migrate env r st output).state.ledger.rows = st.ledger.rows ++ extra
      ∧ (∀ rec ∈ extra, rec.batch = st.ledger.maxBatch + 1)
      ∧ (st.ledger.rows = [] → ∀ rec ∈ extra, rec.batch = 1) := by
  obtain ⟨extra, he, hb⟩ := migrateLoop_rows env r output (get_last_batch_number st + 1)
    (get_unran_migrations env st) st
  refine ⟨extra, he, hb, ?_⟩
  intro hnil rec hrec
  rw [hb rec hrec]
  show st.ledger.maxBatch + 1 = 1
  rw [Ledger.maxBatch_of_rows_nil hnil]

theorem migrate_single_batch_number_witness :
    (migrate demoEnv demoRunner demoState false).error? = none
      ∧ ∃ extra, (migrate demoEnv demoRunner demoState false).state.ledger.rows =
            demoState.ledger.rows ++ extra
          ∧ (∀ rec ∈ extra, rec.batch = demoState.ledger.maxBatch + 1)
          ∧ (demoState.ledger.rows = [] → ∀ rec ∈ extra, rec.batch = 1) :=
  ⟨by decide, migrate_single_batch_number demoEnv demoRunner demoState false (by decide)⟩

/-- C3: the pending set computed before a `migrate()` run is exactly the
discovered filenames (file entries of the listed directory, excluding
`__init__.py`) minus the names already recorded in the ledger, in ascending
lexicographic filename order, and an error-free `migrate()` call leaves the
pending set empty. -/
theorem pending_is_discovery_minus_ledger (env : Env) (r : Runner) (st : RunnerState) :
    (∀ m, m ∈ get_unran_migrations env st ↔
        m ∈ env.listdirFiles (env.cwd ++ "/" ++ "databases/migrations")
          ∧ m ≠ "__init__.py" ∧ m ∉ st.ledger.names)
      ∧ List.Sorted strLe (get_unran_migrations env st)
      ∧ ((migrate env r st false).error? = none →
          get_unran_migrations env (migrate env r st false).state = []) :=
  ⟨fun m => get_unran_mem env st m, get_unran_sorted env st,
    fun hok => migrate_ok_unran_nil env r st hok⟩

theorem pending_is_discovery_minus_ledger_witness :
    (migrate demoEnv demoRunner demoState false).error? = none
      ∧ get_unran_migrations demoEnv (migrate demoEnv demoRunner demoState false).state = [] :=
  ⟨by decide,
    (pending_is_discovery_minus_ledger demoEnv demoRunner demoState).2.2 (by decide)⟩

/-- C7: the directory from which migration candidates are discovered is NOT
the configured migration directory: with `custom/migrations` configured and
holding one file, discovery still lists the file found under the hardcoded
`databases/migrations` path, for `get_unran_migrations` (hence `migrate`)
and `get_ran_migrations` alike. -/
theorem discovery_ignores_configured_directory :
    customDirRunner.migration_directory_arg = "custom/migrations"
      ∧ customDirEnv.listdirFiles ("app" ++ "/" ++ "custom/migrations") =
          ["2021_01_01_000001_alpha.py"]
      ∧ get_unran_migrations customDirEnv (initialRunnerState ⟨[], 0⟩) =
          ["2021_01_01_000001_beta.py"]
      ∧ get_ran_migrations customDirEnv (initialRunnerState ⟨[], 0⟩) = [] := by
  decide

/-- C5 counterexample: a pending filename with no loadable unit at its
derived dotted path makes the run abort, but with a `TypeError` (calling
the `None` that `pydoc.locate` returned), not with a
`MigrationNotFoundError`. -/
theorem locate_failure_error_kind :
    (migrate missingEnv demoRunner demoState false).error? = some PyErr.typeError
      ∧ (migrate missingEnv demoRunner demoState false).error? ≠
          some PyErr.migrationNotFound := by
  decide

/-- C5 amended: when a pending filename has no loadable unit under the
derived module path and CamelCase identifier, the pending migrations before
it are processed and recorded, then the run aborts with an uncaught
`TypeError` (not a `MigrationNotFoundError`), leaving the ledger reflecting
exactly the units processed before the failure. -/
theorem migrate_aborts_at_unresolvable (env : Env) (r : Runner) (st : RunnerState)
    (pre : List String) (bad : String) (rest : List String)
    (hpend : get_unran_migrations env st = pre ++ bad :: rest)
    (hgood : ∀ m ∈ pre, pyLocate env (locateKey r m) ≠ none ∧ m ∉ env.upFails)
    (hbad : pyLocate env (locateKey r bad) = none) :
    (migrate env r st false).error? = some PyErr.typeError
      ∧ (migrate env r st false).state.ledger =
        st.ledger.recordAll (get_last_batch_number st + 1) pre := by
  have hs := migrateLoop_good_split env r (get_last_batch_number st + 1) pre (bad :: rest)
    st hgood
  have he : migrate env r st false =
      migrateLoop env r false (get_last_batch_number st + 1) (pre ++ bad :: rest) st := by
    unfold migrate
    rw [hpend]
  rw [he]
  constructor
  · rw [hs.2]
    simp [migrateLoop, hbad]
  · have h1 := hs.1
    rw [show (migrateLoop env r false (get_last_batch_number st + 1) (bad :: rest)
        ⟨st.ledger.recordAll (get_last_batch_number st + 1) pre,
          st.last_migrations_ran ++ pre⟩).state =
        ⟨st.ledger.recordAll (get_last_batch_number st + 1) pre,
          (st.last_migrations_ran ++ pre) ++ [bad]⟩ from by
      simp [migrateLoop, hbad]] at h1
    rw [h1]

theorem migrate_aborts_at_unresolvable_witness :
    get_unran_migrations missingEnv demoState =
        ["2021_01_01_000001_create_users.py"] ++ "2021_01_01_000002_create_posts.py" :: []
      ∧ (∀ m ∈ ["2021_01_01_000001_create_users.py"],
          pyLocate missingEnv (locateKey demoRunner m) ≠ none ∧ m ∉ missingEnv.upFails)
      ∧ pyLocate missingEnv (locateKey demoRunner "2021_01_01_000002_create_posts.py") = none
      ∧ ((migrate missingEnv demoRunner demoState false).error? = some PyErr.typeError
          ∧ (migrate missingEnv demoRunner demoState false).state.ledger =
            demoState.ledger.recordAll (get_last_batch_number demoState + 1)
              ["2021_01_01_000001_create_users.py"]) :=
  ⟨by decide, by decide, by decide,
    migrate_aborts_at_unresolvable missingEnv demoRunner demoState
      ["2021_01_01_000001_create_users.py"] "2021_01_01_000002_create_posts.py" []
      (by decide) (by decide) (by decide)⟩

/-- C6 counterexample: `rollback_all` instantiates a resolved unit with no
connection argument at all, even when the runner was constructed with a
non-default connection. -/
theorem rollback_all_instantiates_without_connection :
    analyticsRunner.connection = "analytics"
      ∧ instantiationsOf (rollback_all threeEnv analyticsRunner oneRowState).events =
          [("2021_01_01_000001_create_users.py", none)]
      ∧ (none : Option String) ≠ some "analytics" := by
  decide

/-- C6 amended: `migrate`, `rollback` and `reset` instantiate every
resolved unit with the runner's configured connection; `rollback_all`
instantiates resolved units without passing any connection. -/
theorem instantiation_connection_binding :
    (∀ env r st output pr, pr ∈ instantiationsOf (migrate env r st output).events →
        pr.2 = some r.connection)
      ∧ (∀ env r st output pr, pr ∈ instantiationsOf (rollback env r st output).events →
          pr.2 = some r.connection)
      ∧ (∀ env r st pr, pr ∈ instantiationsOf (reset env r st).events →
          pr.2 = some r.connection)
      ∧ (∀ env r st pr, pr ∈ instantiationsOf (rollback_all env r st).events →
          pr.2 = none) := by
  refine ⟨?_, ?_, ?_, ?_⟩
  · intro env r st output pr h
    exact migrateLoop_conns env r output _ _ st pr h
  · intro env r st output pr h
    exact rollbackLoop_conns env r output _ st pr h
  · intro env r st pr h
    exact resetLoop_conns env r _ st pr h
  · intro env r st pr h
    unfold rollback_all at h
    revert h
    cases he : (rollbackAllLoop env r (get_all_migrations st false) st).error? with
    | some e =>
      simp only [he]
      intro h
      exact rollbackAllLoop_conns env r _ st pr h
    | none =>
      simp only [he]
      intro h
      simp only [instantiationsOf, List.filterMap_append] at h
      rcases List.mem_append.mp h with hm | hm
      · exact rollbackAllLoop_conns env r _ st pr hm
      · simp [List.filterMap_cons] at hm

theorem instantiation_connection_binding_witness :
    ("2021_01_01_000001_create_users.py", some "default") ∈
        instantiationsOf (migrate demoEnv demoRunner demoState false).events
      ∧ (("2021_01_01_000001_create_users.py", some "default") : String × Option String).2 =
          some demoRunner.connection :=
  ⟨by decide,
    instantiation_connection_binding.1 demoEnv demoRunner demoState false _ (by decide)⟩

/-- C1 counterexample: with a reporting collaborator configured,
`migrate(output=True)` processes a pending migration without error yet
performs no ledger write at all — the preview branch ends in `continue`
before `create`. -/
theorem preview_with_collaborator_skips_ledger_write :
    (migrate demoEnv demoRunnerCC demoState true).error? = none
      ∧ get_unran_migrations demoEnv demoState ≠ []
      ∧ recordedOf (migrate demoEnv demoRunnerCC demoState true).events = []
      ∧ (migrate demoEnv demoRunnerCC demoState true).state.ledger.rows = [] := by
  decide

/-- C1 amended: preview leaves ledger writes intact only when no reporting
collaborator is configured — an error-free `migrate(preview)` then records
every pending migration and an error-free `rollback(preview)` removes every
latest-batch name; with a collaborator configured, the preview branch
`continue`s past the ledger write, so nothing is recorded or removed. -/
theorem preview_ledger_writes_iff_no_collaborator :
    (∀ env r st, r.command_class = false → (migrate env r st true).error? = none →
        recordedOf (migrate env r st true).events =
          (get_unran_migrations env st).map (fun m => (m, st.ledger.maxBatch + 1)))
      ∧ (∀ env r st, r.command_class = false → (rollback env r st true).error? = none →
          removedOf (rollback env r st true).events = st.ledger.latestBatchNames)
      ∧ (∀ env r st, r.command_class = true →
          recordedOf (migrate env r st true).events = [])
      ∧ (∀ env r st, r.command_class = true →
          removedOf (rollback env r st true).events = []) := by
  refine ⟨?_, ?_, ?_, ?_⟩
  · intro env r st hcc hok
    exact (migrateLoop_ok env r true _ (by simp [hcc]) _ st hok).2
  · intro env r st hcc hok
    exact (rollbackLoop_ok env r true (by simp [hcc]) _ st hok).2.1
  · intro env r st hcc
    exact (migrateLoop_skip env r true _ (by simp [hcc]) _ st).2.1
  · intro env r st hcc
    exact (rollbackLoop_skip env r true (by simp [hcc]) _ st).2

theorem preview_ledger_writes_iff_no_collaborator_witness :
    demoRunner.command_class = false
      ∧ (migrate demoEnv demoRunner demoState true).error? = none
      ∧ recordedOf (migrate demoEnv demoRunner demoState true).events =
          (get_unran_migrations demoEnv demoState).map
            (fun m => (m, demoState.ledger.maxBatch + 1))
      ∧ demoRunnerCC.command_class = true
      ∧ recordedOf (migrate demoEnv demoRunnerCC demoState true).events = [] :=
  ⟨rfl, by decide,
    preview_ledger_writes_iff_no_collaborator.1 demoEnv demoRunner demoState rfl (by decide),
    rfl,
    preview_ledger_writes_iff_no_collaborator.2.2.1 demoEnv demoRunnerCC demoState rfl⟩

theorem latestBatchNames_mem_iff (l : Ledger) (hnd : l.names.Nodup)
    {rec : MigrationRecord} (hrec : rec ∈ l.rows) :
    rec.migration ∈ l.latestBatchNames ↔ rec.batch = l.maxBatch := by
  constructor
  · intro hmem
    obtain ⟨rec', hrec', hname⟩ := List.mem_map.mp hmem
    have hfil : rec' ∈ l.rows.filter (fun x => decide (x.batch = l.maxBatch)) :=
      ((List.perm_insertionSort idGe _).mem_iff).mp hrec'
    rw [List.mem_filter] at hfil
    have heq : rec' = rec := List.inj_on_of_nodup_map hnd hfil.1 hrec hname
    have hb := hfil.2
    rw [decide_eq_true_eq] at hb
    rw [← heq]
    exact hb
  · intro hb
    have hfil : rec ∈ l.rows.filter (fun x => decide (x.batch = l.maxBatch)) := by
      rw [List.mem_filter]
      exact ⟨hrec, by simp [hb]⟩
    exact List.mem_map_of_mem _ (((List.perm_insertionSort idGe _).mem_iff).mpr hfil)

theorem rollback_once (env : Env) (r : Runner) (st : RunnerState)
    (hnd : st.ledger.names.Nodup)
    (hok : (rollback env r st false).error? = none) :
    (rollback env r st false).state.ledger.rows =
        st.ledger.rows.filter (fun rec => decide (rec.batch ≠ st.ledger.maxBatch))
      ∧ (rollback env r st false).state.ledger.nextId = st.ledger.nextId
      ∧ removedOf (rollback env r st false).events = st.ledger.latestBatchNames
      ∧ (rollback env r st false).state.last_migrations_ran = st.last_migrations_ran := by
  have h := rollbackLoop_ok env r false (by simp) (get_rollback_migrations st) st hok
  have hseq := Ledger.removeSeq_spec (get_rollback_migrations st) st.ledger
  have hstate : (rollback env r st false).state =
      ⟨st.ledger.removeSeq (get_rollback_migrations st), st.last_migrations_ran⟩ := h.1
  refine ⟨?_, ?_, h.2.1, ?_⟩
  · rw [hstate]
    show (st.ledger.removeSeq (get_rollback_migrations st)).rows = _
    rw [hseq.1]
    apply List.filter_congr
    intro rec hrec
    refine decide_eq_decide.mpr (not_iff_not.mpr ?_)
    exact latestBatchNames_mem_iff st.ledger hnd hrec
  · rw [hstate]
    exact hseq.2
  · rw [hstate]

/-- C4: a non-preview `rollback()` removes exactly the rows of the maximum
batch — the names `latest_batch_names()` returns, in descending
surrogate-key order — changes no row of any other batch, and a second
`rollback()` then reverts the batch that was previously
second-most-recent. -/
theorem rollback_removes_exactly_latest_batch (env : Env) (r : Runner) (st : RunnerState)
    (hnd : st.ledger.names.Nodup)
    (hok : (rollback env r st false).error? = none) :
    (rollback env r st false).state.ledger.rows =
        st.ledger.rows.filter (fun rec => decide (rec.batch ≠ st.ledger.maxBatch))
      ∧ removedOf (rollback env r st false).events = st.ledger.latestBatchNames
      ∧ ((rollback env r (rollback env r st false).state false).error? = none →
          (rollback env r (rollback env r st false).state false).state.ledger.rows =
            st.ledger.rows.filter (fun rec =>
              decide (rec.batch ≠ st.ledger.maxBatch ∧
                rec.batch ≠ (rollback env r st false).state.ledger.maxBatch))) := by
  have h1 := rollback_once env r st hnd hok
  refine ⟨h1.1, h1.2.2.1, ?_⟩
  intro hok2
  have hnd2 : (rollback env r st false).state.ledger.names.Nodup := by
    show ((rollback env r st false).state.ledger.rows.map (fun rec => rec.migration)).Nodup
    rw [h1.1]
    exact List.Nodup.sublist (List.Sublist.map _ (List.filter_sublist _)) hnd
  have h2 := rollback_once env r (rollback env r st false).state hnd2 hok2
  rw [h2.1, h1.1, List.filter_filter]
  apply List.filter_congr
  intro rec hrec
  rw [← Bool.decide_and]
  exact decide_eq_decide.mpr (by tauto)

theorem rollback_removes_exactly_latest_batch_witness :
    twoBatchState.ledger.names.Nodup
      ∧ (rollback threeEnv demoRunner twoBatchState false).error? = none
      ∧ (rollback threeEnv demoRunner twoBatchState false).state.ledger.rows =
          twoBatchState.ledger.rows.filter
            (fun rec => decide (rec.batch ≠ twoBatchState.ledger.maxBatch)) :=
  ⟨by decide, by decide,
    (rollback_removes_exactly_latest_batch threeEnv demoRunner twoBatchState
      (by decide) (by decide)).1⟩

theorem reset_ok_rows_nil (env : Env) (r : Runner) (st : RunnerState)
    (hok : (reset env r st).error? = none) :
    (reset env r st).state.ledger.rows = [] := by
  have h := resetLoop_ok env r (get_all_migrations st true) st hok
  show (resetLoop env r (get_all_migrations st true) st).state.ledger.rows = []
  rw [h.1, List.filter_eq_nil_iff]
  intro rec hrec
  simp only [decide_eq_true_eq, not_not]
  have hall : get_all_migrations st true = st.ledger.allNamesDesc := by
    simp [get_all_migrations]
  rw [hall]
  exact List.mem_map_of_mem _ (((List.perm_insertionSort idGe _).mem_iff).mpr hrec)

/-- C8: `reset()` processes all ledger names in descending surrogate-key
order, invoking each unit's `down()` and removing the name from the ledger
one at a time, and an error-free `reset()` leaves the ledger empty. -/
theorem reset_reverts_all_and_empties_ledger (env : Env) (r : Runner) (st : RunnerState)
    (hok : (reset env r st).error? = none) :
    revertedOf (reset env r st).events = st.ledger.allNamesDesc
      ∧ removedOf (reset env r st).events = st.ledger.allNamesDesc
      ∧ List.Sorted idGe (List.insertionSort idGe st.ledger.rows)
      ∧ (reset env r st).state.ledger.rows = []
      ∧ (reset env r st).state.last_migrations_ran = st.last_migrations_ran := by
  have h := resetLoop_ok env r (get_all_migrations st true) st hok
  have hall : get_all_migrations st true = st.ledger.allNamesDesc := by
    simp [get_all_migrations]
  refine ⟨?_, ?_, ?_, reset_ok_rows_nil env r st hok, h.2.2.1⟩
  · rw [← hall]
    exact h.2.2.2.2
  · rw [← hall]
    exact h.2.2.2.1
  · haveI := idGe_isTotal
    haveI := idGe_isTrans
    exact List.sorted_insertionSort idGe _

theorem reset_reverts_all_and_empties_ledger_witness :
    (reset threeEnv demoRunner twoBatchState).error? = none
      ∧ removedOf (reset threeEnv demoRunner twoBatchState).events =
          twoBatchState.ledger.allNamesDesc
      ∧ (reset threeEnv demoRunner twoBatchState).state.ledger.rows = [] := by
  have h := reset_reverts_all_and_empties_ledger threeEnv demoRunner twoBatchState (by decide)
  exact ⟨by decide, h.2.1, h.2.2.2.1⟩

/-- C9: `refresh()` is exactly `reset()` followed by `migrate()`, and an
error-free `refresh()` yields a ledger with the same migration names as a
`migrate()` run from an empty ledger, with every record at batch 1. -/
theorem refresh_is_reset_then_migrate (env : Env) (r : Runner) (st : RunnerState)
    (hok : (refresh env r st).error? = none) :
    (refresh env r st =
        match (reset env r st).error? with
        | some e => ⟨(reset env r st).state, (reset env r st).events, some e⟩
        | none =>
            ⟨(migrate env r (reset env r st).state false).state,
              (reset env r st).events ++ (migrate env r (reset env r st).state false).events,
              (migrate env r (reset env r st).state false).error?⟩)
      ∧ (migrate env r (initialRunnerState ⟨[], 0⟩) false).error? = none
      ∧ (refresh env r st).state.ledger.names =
          (migrate env r (initialRunnerState ⟨[], 0⟩) false).state.ledger.names
      ∧ (∀ rec ∈ (refresh env r st).state.ledger.rows, rec.batch = 1) := by
  have hre : (reset env r st).error? = none := by
    cases he : (reset env r st).error? with
    | none => rfl
    | some e =>
      exfalso
      have hcontra : (refresh env r st).error? = some e := by
        unfold refresh
        simp only [he]
      rw [hcontra] at hok
      exact Option.noConfusion hok
  have hempty : (reset env r st).state.ledger.rows = [] := reset_ok_rows_nil env r st hre
  have hnames1 : (reset env r st).state.ledger.names = [] := by
    show ((reset env r st).state.ledger.rows.map (fun rec => rec.migration)) = []
    rw [hempty]
    rfl
  have hrefresh_st : (refresh env r st).state =
      (migrate env r (reset env r st).state false).state := by
    unfold refresh
    simp only [hre]
  have hrefresh_err : (refresh env r st).error? =
      (migrate env r (reset env r st).state false).error? := by
    unfold refresh
    simp only [hre]
  have hmok : (migrate env r (reset env r st).state false).error? = none := by
    rw [← hrefresh_err]
    exact hok
  have hb1 : get_last_batch_number (reset env r st).state = 0 :=
    Ledger.maxBatch_of_rows_nil hempty
  have hb0 : get_last_batch_number (initialRunnerState ⟨[], 0⟩) = 0 := rfl
  have hpend : get_unran_migrations env (initialRunnerState ⟨[], 0⟩) =
      get_unran_migrations env (reset env r st).state :=
    get_unran_congr env (by rw [hnames1]; rfl)
  have hfe_err : (migrate env r (initialRunnerState ⟨[], 0⟩) false).error? = none := by
    have heq : (migrate env r (initialRunnerState ⟨[], 0⟩) false).error? =
        (migrate env r (reset env r st).state false).error? := by
      show (migrateLoop env r false (get_last_batch_number (initialRunnerState ⟨[], 0⟩) + 1)
          (get_unran_migrations env (initialRunnerState ⟨[], 0⟩))
          (initialRunnerState ⟨[], 0⟩)).error? =
        (migrateLoop env r false (get_last_batch_number (reset env r st).state + 1)
          (get_unran_migrations env (reset env r st).state) (reset env r st).state).error?
      rw [hpend, hb0, hb1]
      exact migrateLoop_error_indep env r false _ _ _ _
    rw [heq]
    exact hmok
  have hskip0 : (false && r.command_class) = false := by simp
  have hM1' : (migrate env r (reset env r st).state false).state =
      ⟨(reset env r st).state.ledger.recordAll
          (get_last_batch_number (reset env r st).state + 1)
          (get_unran_migrations env (reset env r st).state),
        (reset env r st).state.last_migrations_ran ++
          get_unran_migrations env (reset env r st).state⟩ :=
    (migrateLoop_ok env r false _ hskip0 _ _ hmok).1
  have hM0' : (migrate env r (initialRunnerState ⟨[], 0⟩) false).state =
      ⟨(initialRunnerState ⟨[], 0⟩).ledger.recordAll
          (get_last_batch_number (initialRunnerState ⟨[], 0⟩) + 1)
          (get_unran_migrations env (initialRunnerState ⟨[], 0⟩)),
        (initialRunnerState ⟨[], 0⟩).last_migrations_ran ++
          get_unran_migrations env (initialRunnerState ⟨[], 0⟩)⟩ :=
    (migrateLoop_ok env r false _ hskip0 _ _ hfe_err).1
  refine ⟨rfl, hfe_err, ?_, ?_⟩
  · rw [hrefresh_st, hM1', hM0']
    show ((reset env r st).state.ledger.recordAll _ _).names =
      ((initialRunnerState ⟨[], 0⟩).ledger.recordAll _ _).names
    rw [Ledger.names_recordAll, Ledger.names_recordAll, hnames1, hpend]
    rfl
  · intro rec hrec
    rw [hrefresh_st, hM1'] at hrec
    obtain ⟨extra, he, hb⟩ := Ledger.recordAll_rows
      (get_last_batch_number (reset env r st).state + 1)
      (get_unran_migrations env (reset env r st).state) (reset env r st).state.ledger
    show rec.batch = 1
    have hrec' : rec ∈ (reset env r st).state.ledger.rows ++ extra := by
      rw [← he]
      exact hrec
    rcases List.mem_append.mp hrec' with hm | hm
    · rw [hempty] at hm
      cases hm
    · rw [hb rec hm, hb1]

theorem refresh_is_reset_then_migrate_witness :
    (refresh threeEnv demoRunner twoBatchState).error? = none
      ∧ (refresh threeEnv demoRunner twoBatchState).state.ledger.names =
          (migrate threeEnv demoRunner (initialRunnerState ⟨[], 0⟩) false).state.ledger.names :=
  ⟨by decide,
    (refresh_is_reset_then_migrate threeEnv demoRunner twoBatchState (by decide)).2.2.1⟩

/-- C10: `last_migrations_ran` starts empty at construction; every
`migrate` call appends the filename of each pending migration it
processes — the head of the pending list already before its unit is
applied, preview mode included — and no engine operation ever removes
entries, so the list only grows. -/
theorem last_migrations_ran_append_only :
    (∀ l, (initialRunnerState l).last_migrations_ran = [])
      ∧ (∀ env r st output, st.last_migrations_ran <+:
          (migrate env r st output).state.last_migrations_ran)
      ∧ (∀ env r st output, (migrate env r st output).error? = none →
          (migrate env r st output).state.last_migrations_ran =
            st.last_migrations_ran ++ get_unran_migrations env st)
      ∧ (∀ env r st output m rest, get_unran_migrations env st = m :: rest →
          st.last_migrations_ran ++ [m] <+:
            (migrate env r st output).state.last_migrations_ran)
      ∧ (∀ env r st output, (rollback env r st output).state.last_migrations_ran =
          st.last_migrations_ran)
      ∧ (∀ env r st, (reset env r st).state.last_migrations_ran =
          st.last_migrations_ran)
      ∧ (∀ env r st, (rollback_all env r st).state.last_migrations_ran =
          st.last_migrations_ran) := by
  refine ⟨fun l => rfl, ?_, ?_, ?_, ?_, ?_, ?_⟩
  · intro env r st output
    exact migrateLoop_lmr_mono env r output _ _ st
  · intro env r st output hok
    exact migrateLoop_lmr_ok env r output _ _ st hok
  · intro env r st output m rest hpend
    have he : migrate env r st output =
        migrateLoop env r output (get_last_batch_number st + 1) (m :: rest) st := by
      unfold migrate
      rw [hpend]
    rw [he]
    simp only [migrateLoop]
    cases hloc : pyLocate env (locateKey r m) with
    | none => exact List.prefix_refl _
    | some u =>
      by_cases hup : m ∈ env.upFails
      · simp only [hup, if_pos]
        exact List.prefix_refl _
      · by_cases hskip : (output && r.command_class) = true
        · simp only [hup, if_neg, not_false_iff, hskip, if_pos]
          exact migrateLoop_lmr_mono env r output _ rest
            ⟨st.ledger, st.last_migrations_ran ++ [m]⟩
        · simp only [hup, if_neg, not_false_iff, hskip, if_false, Bool.not_eq_true]
          exact migrateLoop_lmr_mono env r output _ rest
            ⟨st.ledger.record m (get_last_batch_number st + 1),
              st.last_migrations_ran ++ [m]⟩
  · intro env r st output
    exact rollbackLoop_lmr env r output _ st
  · intro env r st
    exact resetLoop_lmr env r _ st
  · intro env r st
    unfold rollback_all
    cases he : (rollbackAllLoop env r (get_all_migrations st false) st).error? with
    | some e =>
      simp only [he]
      exact rollbackAllLoop_lmr env r _ st
    | none =>
      simp only [he]
      exact rollbackAllLoop_lmr env r _ st

theorem last_migrations_ran_append_only_witness :
    (migrate demoEnv demoRunner demoState false).error? = none
      ∧ (migrate demoEnv demoRunner demoState false).state.last_migrations_ran =
          demoState.last_migrations_ran ++ get_unran_migrations demoEnv demoState :=
  ⟨by decide,
    last_migrations_ran_append_only.2.2.1 demoEnv demoRunner demoState false (by decide)⟩

end MasoniteOrm
